import Mathlib

/-!
Verification of the in-memory thumbnail cache in
`src/civit_model_loader/thumbnail.py` (`ThumbnailCache`).

Shallow embedding conventions:
* The two Python dicts `_cache` and `_access_times` are insertion-ordered
  association lists, because CPython dicts iterate in insertion order and
  `min(...)` over the keys breaks ties by that order.
* `time.time()` values are supplied by the caller as a `Nat` parameter `now`
  (one clock reading per public call).
* The filesystem and the PIL decode/resize/encode/base64 pipeline are an
  environment `Env` of oracles; `createThumbnail` directly yields the base64
  text (or `none` on any decode/encode failure), matching the fused effect of
  `_create_thumbnail` + `base64.b64encode(...).decode()`.
* `hashlib.md5(key_string.encode()).hexdigest()` is abstracted as an injective
  key constructor: the hash input `f"{file_path}:{mtime}:{w}x{h}"` is
  determined by the tuple `(file_path, mtime, w, h)`, so the key is modelled
  as that tuple (md5 collisions are ignored).
* The ghost field `gen_calls` counts invocations of `_create_thumbnail`; it is
  instrumentation only (no source field) and lets "no recomputation" claims be
  stated.  No definition reads it.
-/

namespace Thumb

/-- Cache key: stands for `_generate_cache_key`'s md5 of
`f"{file_path}:{mtime}:{w}x{h}"`, modelled as the tuple that determines the
hashed string. -/
structure CacheKey where
  path : String
  mtime : Nat
  width : Nat
  height : Nat
deriving DecidableEq, Repr

/-- One value of the `_cache` dict: `{'data': ..., 'size': ..., 'created': ...}`
from `get_thumbnail_base64` (thumbnail.py lines 132-136). -/
structure CacheItem where
  data : String
  size : Nat
  created : Nat
deriving DecidableEq, Repr

/-- Mutable state of a `ThumbnailCache` instance: `_cache`, `_access_times`
(insertion-ordered association lists mirroring CPython dicts) and
`_current_memory_usage` (a Python `int`, hence `Int`).  `gen_calls` is a ghost
counter of `_create_thumbnail` invocations (not in the source). -/
structure CacheState where
  cache : List (CacheKey × CacheItem)
  access_times : List (CacheKey × Nat)
  current_memory_usage : Int
  gen_calls : Nat
deriving DecidableEq, Repr

/-- Configuration fixed in `ThumbnailCache.__init__`: `max_cache_size`,
`max_memory_bytes` and `thumbnail_size`. -/
structure Config where
  max_cache_size : Nat
  max_memory_bytes : Nat
  thumb_w : Nat
  thumb_h : Nat
deriving DecidableEq, Repr

/-- The freshly initialised cache state of `__init__`: empty dicts, zero
memory counter. -/
def initState : CacheState := ⟨[], [], 0, 0⟩

/-- Environment oracles: `os.path.isfile`, `os.path.getmtime`, and the fused
decode/resize/encode/base64 pipeline of `_create_thumbnail` followed by
`base64.b64encode(...).decode('utf-8')`; `none` is any caught decode/encode
failure. -/
structure Env where
  isfile : String → Bool
  getmtime : String → Nat
  createThumbnail : String → Option String

/-- Dict read `d.get(k)` / `d[k]` on an association list: first binding of the
key (keys are unique in a dict, so first = only). -/
def assocGet {α : Type} (l : List (CacheKey × α)) (k : CacheKey) : Option α :=
  match l with
  | [] => none
  | (k', v) :: rest => if k' = k then some v else assocGet rest k

/-- Dict write `d[k] = v`: update in place when the key exists (CPython keeps
its position), append otherwise. -/
def assocSet {α : Type} (l : List (CacheKey × α)) (k : CacheKey) (v : α) :
    List (CacheKey × α) :=
  match l with
  | [] => [(k, v)]
  | (k', v') :: rest =>
      if k' = k then (k, v) :: rest else (k', v') :: assocSet rest k v

/-- Dict delete `del d[k]`: removes the binding of `k`.  (CPython raises
`KeyError` when the key is absent; in `_evict_lru` the key always comes from
`_access_times` and is present, so on all reachable states this total version
agrees with the source.) -/
def assocDel {α : Type} (l : List (CacheKey × α)) (k : CacheKey) :
    List (CacheKey × α) :=
  match l with
  | [] => []
  | (k', v') :: rest =>
      if k' = k then rest else (k', v') :: assocDel rest k

/-- `min(self._access_times.keys(), key=lambda k: self._access_times[k])`:
the first key (in dict insertion order) attaining the minimal access time —
Python's `min` keeps the earliest of equal elements. -/
def oldestEntry : List (CacheKey × Nat) → Option (CacheKey × Nat)
  | [] => none
  | (k, t) :: rest =>
      match oldestEntry rest with
      | none => some (k, t)
      | some (k', t') => if t ≤ t' then some (k, t) else some (k', t')

/-- Index of the last occurrence of `c` in `l` (Python `str.rfind`, as an
`Option`). -/
def lastIdxOf (l : List Char) (c : Char) : Option Nat :=
  match l with
  | [] => none
  | x :: rest =>
      match lastIdxOf rest c with
      | some i => some (i + 1)
      | none => if x = c then some 0 else none

/-- Extension part of CPython `posixpath.splitext(p)[1]`: split at the last
`'.'` that lies after the last `'/'`, provided some non-dot character of the
basename precedes it (so dotfiles like `.bashrc` have no extension). -/
def splitext_ext (p : String) : String :=
  let l := p.toList
  let sepIndex : Int :=
    match lastIdxOf l '/' with
    | none => -1
    | some i => (i : Int)
  let dotIndex : Int :=
    match lastIdxOf l '.' with
    | none => -1
    | some i => (i : Int)
  if sepIndex < dotIndex &&
      (List.range l.length).any (fun j =>
        decide (sepIndex < (j : Int)) && decide ((j : Int) < dotIndex) &&
          (l.getD j '.' != '.')) then
    String.mk (l.drop dotIndex.toNat)
  else ""

/-- Python `str.lower()` applied to an extension, character by character.
(`Char.toLower` lowercases ASCII `A`-`Z` only; Python lowercasing is
Unicode-aware, but no non-ASCII character lowercases onto the ASCII letters
occurring in the supported extensions, so membership in
`SUPPORTED_IMAGE_FORMATS` is unaffected.) -/
def lowerStr (s : String) : String :=
  String.mk (s.toList.map Char.toLower)

/-- `SUPPORTED_IMAGE_FORMATS` (thumbnail.py lines 15-16). -/
def SUPPORTED_IMAGE_FORMATS : List String :=
  [".jpg", ".jpeg", ".png", ".bmp", ".tiff", ".tif", ".webp", ".gif"]

/-- `_generate_cache_key(file_path, mtime)`: md5 of
`f"{file_path}:{mtime}:{w}x{h}"`, abstracted as the determining tuple (note:
the path is used exactly as supplied, with no normalisation). -/
def generate_cache_key (cfg : Config) (file_path : String) (mtime : Nat) :
    CacheKey :=
  ⟨file_path, mtime, cfg.thumb_w, cfg.thumb_h⟩

/-- Loop guard of `_evict_lru`:
`len(self._cache) > self.max_cache_size or self._current_memory_usage > self.max_memory_bytes`. -/
def overCapacity (cfg : Config) (s : CacheState) : Bool :=
  decide (cfg.max_cache_size < s.cache.length) ||
    decide ((cfg.max_memory_bytes : Int) < s.current_memory_usage)

/-- One iteration of the `_evict_lru` while-loop body: subtract the evicted
item's size from the memory counter (`if cache_item:` is true for every stored
item, since stored items are non-empty dicts) and delete the key from both
dicts. -/
def evictStep (s : CacheState) (oldest_key : CacheKey) : CacheState :=
  { cache := assocDel s.cache oldest_key
    access_times := assocDel s.access_times oldest_key
    current_memory_usage :=
      match assocGet s.cache oldest_key with
      | some item => s.current_memory_usage - (item.size : Int)
      | none => s.current_memory_usage
    gen_calls := s.gen_calls }

/-- The while loop of `_evict_lru`, driven by explicit fuel.  Each iteration
deletes one key from `_access_times`, so the fuel `s.access_times.length`
supplied by `evict_lru` always suffices: whenever the fuel reaches `0` with
the guard still true, `_access_times` is already empty and the source loop
would `break` anyway (see the eviction-termination theorem). -/
def evictLoop (cfg : Config) : Nat → CacheState → CacheState
  | 0, s => s
  | fuel + 1, s =>
      if overCapacity cfg s then
        match oldestEntry s.access_times with
        | none => s
        | some (oldest_key, _) => evictLoop cfg fuel (evictStep s oldest_key)
      else s

/-- `_evict_lru`: while over capacity, remove the least-recently-accessed
entry; bounded by the population of `_access_times` at entry. -/
def evict_lru (cfg : Config) (s : CacheState) : CacheState :=
  evictLoop cfg s.access_times.length s

/-- `get_thumbnail_base64(file_path)` (thumbnail.py lines 92-150): the gates
(`os.path.isfile`, extension check), the mtime/key computation, the cache-hit
branch (refresh access time, return cached data), and the miss branch
(generate, store in both dicts, bump memory, evict, return).  The function is
total: every failure path is the value `none`, mirroring the source's policy
of catching every exception and returning `None`.  Returns the result together
with the updated state. -/
def get_thumbnail_base64 (env : Env) (cfg : Config) (now : Nat)
    (s : CacheState) (file_path : String) : Option String × CacheState :=
  if env.isfile file_path = false then (none, s)
  else
    let ext := lowerStr (splitext_ext file_path)
    if ext ∉ SUPPORTED_IMAGE_FORMATS then (none, s)
    else
      let mtime := env.getmtime file_path
      let cache_key := generate_cache_key cfg file_path mtime
      match assocGet s.cache cache_key with
      | some item =>
          (some item.data,
            { s with access_times := assocSet s.access_times cache_key now })
      | none =>
          match env.createThumbnail file_path with
          | none => (none, { s with gen_calls := s.gen_calls + 1 })
          | some thumbnail_base64 =>
              let cache_item : CacheItem :=
                { data := thumbnail_base64
                  size := thumbnail_base64.length
                  created := now }
              let s' : CacheState :=
                { cache := assocSet s.cache cache_key cache_item
                  access_times := assocSet s.access_times cache_key now
                  current_memory_usage :=
                    s.current_memory_usage + (cache_item.size : Int)
                  gen_calls := s.gen_calls + 1 }
              (some thumbnail_base64, evict_lru cfg s')

/-- `clear_cache()`: clear both dicts and reset the memory counter. -/
def clear_cache (s : CacheState) : CacheState :=
  { cache := [], access_times := [], current_memory_usage := 0
    gen_calls := s.gen_calls }

/-- `get_cache_stats()` result (memory reported in raw bytes rather than the
source's `/ (1024*1024)` float division, which only rescales the value). -/
structure Stats where
  cache_size : Nat
  max_cache_size : Nat
  memory_usage_bytes : Int
  max_memory_bytes : Nat
  thumb_w : Nat
  thumb_h : Nat
deriving DecidableEq, Repr

/-- `get_cache_stats()`: read-only snapshot; does not change the state. -/
def get_cache_stats (cfg : Config) (s : CacheState) : Stats :=
  { cache_size := s.cache.length
    max_cache_size := cfg.max_cache_size
    memory_usage_bytes := s.current_memory_usage
    max_memory_bytes := cfg.max_memory_bytes
    thumb_w := cfg.thumb_w
    thumb_h := cfg.thumb_h }

/-- One public call on the cache.  A `lookup` carries the filesystem/codec
environment at call time (mtimes may change between calls) and the
`time.time()` reading. -/
inductive Op where
  | lookup (env : Env) (file_path : String) (now : Nat)
  | clear
  | stats

/-- State transition of one public call (`stats` is read-only). -/
def stepOp (cfg : Config) (s : CacheState) : Op → CacheState
  | Op.lookup env file_path now =>
      (get_thumbnail_base64 env cfg now s file_path).2
  | Op.clear => clear_cache s
  | Op.stats => s

/-- State after a sequence of public calls, oldest first. -/
def runOps (cfg : Config) (s : CacheState) : List Op → CacheState
  | [] => s
  | op :: rest => runOps cfg (stepOp cfg s op) rest

/-- Sum of the `size` fields of the items stored in a `_cache` dict. -/
def cacheBytes (l : List (CacheKey × CacheItem)) : Int :=
  (l.map (fun p => ((p.2.size : Int)))).sum

/-- Bookkeeping well-formedness: `_cache` and `_access_times` hold exactly the
same keys (in the same dict order), keys are unique (they are dict keys), and
`_current_memory_usage` equals the sum of the stored items' sizes. -/
def wf (s : CacheState) : Prop :=
  s.cache.map Prod.fst = s.access_times.map Prod.fst ∧
  (s.cache.map Prod.fst).Nodup ∧
  s.current_memory_usage = cacheBytes s.cache

instance (s : CacheState) : Decidable (wf s) := by
  unfold wf; infer_instance

/-- Capacity bounds of the spec: entry count within `max_cache_size` and
memory counter within `max_memory_bytes`. -/
def withinCapacity (cfg : Config) (s : CacheState) : Prop :=
  s.cache.length ≤ cfg.max_cache_size ∧
  s.current_memory_usage ≤ (cfg.max_memory_bytes : Int)

instance (cfg : Config) (s : CacheState) : Decidable (withinCapacity cfg s) := by
  unfold withinCapacity; infer_instance

/-- The state inserted by the miss branch before eviction runs. -/
def insertedState (cfg : Config) (now : Nat) (s : CacheState)
    (file_path : String) (mtime : Nat) (thumbnail_base64 : String) :
    CacheState :=
  { cache :=
      assocSet s.cache (generate_cache_key cfg file_path mtime)
        { data := thumbnail_base64, size := thumbnail_base64.length
          created := now }
    access_times :=
      assocSet s.access_times (generate_cache_key cfg file_path mtime) now
    current_memory_usage :=
      s.current_memory_usage + (thumbnail_base64.length : Int)
    gen_calls := s.gen_calls + 1 }

/-! Concrete scenario data, used to instantiate the general theorems and to
exhibit concrete behaviours. -/

/-- A filesystem with three images `a.png`, `b.png`, `c.png`, all with
modification time 10; generation succeeds with a distinct payload per path. -/
def envABC : Env :=
  { isfile := fun p => p ∈ ["a.png", "b.png", "c.png"]
    getmtime := fun _ => 10
    createThumbnail := fun p => some ("payload-" ++ p) }

/-- `ThumbnailCache(max_cache_size=2)` with a large memory budget. -/
def cfgTwo : Config := ⟨2, 1000000, 150, 150⟩

/-- The P6 call sequence: insert A, insert B, hit A, insert C. -/
def opsLRU : List Op :=
  [Op.lookup envABC "a.png" 1, Op.lookup envABC "b.png" 2,
   Op.lookup envABC "a.png" 3, Op.lookup envABC "c.png" 4]

/-- A filesystem with a 3-byte-payload image and a 16-byte-payload image. -/
def envBig : Env :=
  { isfile := fun p => p ∈ ["small.png", "big.png"]
    getmtime := fun _ => 1
    createThumbnail := fun p =>
      if p = "big.png" then some "0123456789abcdef" else some "abc" }

/-- A cache whose memory budget (10 bytes) is below `envBig`'s big payload. -/
def cfgTiny : Config := ⟨100, 10, 150, 150⟩

/-- A filesystem in which the relative spelling `img1.png` and the absolute
spelling `/models/img1.png` denote the same underlying file: same existence,
same modification time, and the generation pipeline yields the same payload
for both. -/
def envTwoSpellings : Env :=
  { isfile := fun p => p ∈ ["img1.png", "/models/img1.png"]
    getmtime := fun _ => 100
    createThumbnail := fun _ => some "same-file-payload" }

/-! ### Additional scenario data for instantiating the general theorems -/

/-- A filesystem where every path exists but every generation attempt fails
(covering `corrupt.png`-style inputs) and non-image extensions are reachable. -/
def envFailing : Env :=
  { isfile := fun _ => true
    getmtime := fun _ => 0
    createThumbnail := fun _ => none }

/-- The cache state after one successful insertion of `a.png` (access time 1). -/
def sW : CacheState :=
  runOps cfgTwo initState [Op.lookup envABC "a.png" 1]

/-- The key under which `a.png` (mtime 10) is cached in `sW`. -/
def kW : CacheKey := generate_cache_key cfgTwo "a.png" 10

/-- A configuration with `max_cache_size = 0`, so any nonempty cache is over
capacity. -/
def cfgZero : Config := ⟨0, 1000000, 150, 150⟩

/-- The cache state after inserting the small image under the tiny memory
budget. -/
def sSmall : CacheState :=
  runOps cfgTiny initState [Op.lookup envBig "small.png" 1]

/-! ### Association-list lemmas -/

theorem assocGet_eq_none_iff {α : Type} {l : List (CacheKey × α)} {k : CacheKey} :
    assocGet l k = none ↔ k ∉ l.map Prod.fst := by
  induction l with
  | nil => simp [assocGet]
  | cons p rest ih =>
      obtain ⟨k0, v0⟩ := p
      by_cases h : k0 = k
      · subst h; simp [assocGet]
      · simp only [assocGet, if_neg h, List.map_cons, List.mem_cons]
        rw [ih]
        constructor
        · intro hnk hor
          rcases hor with h1 | h2
          · exact h h1.symm
          · exact hnk h2
        · intro hnot hmem
          exact hnot (Or.inr hmem)

theorem assocGet_isSome_of_mem {α : Type} {l : List (CacheKey × α)}
    {k : CacheKey} (h : k ∈ l.map Prod.fst) : ∃ v, assocGet l k = some v := by
  cases hg : assocGet l k with
  | none => exact absurd (assocGet_eq_none_iff.mp hg) (not_not_intro h)
  | some v => exact ⟨v, rfl⟩

theorem assocGet_mem {α : Type} {l : List (CacheKey × α)} {k : CacheKey}
    {v : α} (h : assocGet l k = some v) : (k, v) ∈ l := by
  induction l with
  | nil => simp [assocGet] at h
  | cons p rest ih =>
      obtain ⟨k0, v0⟩ := p
      by_cases hk : k0 = k
      · subst hk; simp [assocGet] at h; simp [h]
      · simp only [assocGet, if_neg hk] at h
        exact List.mem_cons_of_mem _ (ih h)

theorem assocGet_assocSet_self {α : Type} (l : List (CacheKey × α))
    (k : CacheKey) (v : α) : assocGet (assocSet l k v) k = some v := by
  induction l with
  | nil => simp [assocSet, assocGet]
  | cons p rest ih =>
      obtain ⟨k0, v0⟩ := p
      by_cases hk : k0 = k
      · simp [assocSet, hk, assocGet]
      · simp [assocSet, hk, assocGet, ih]

theorem assocGet_assocSet_ne {α : Type} {l : List (CacheKey × α)}
    {k k' : CacheKey} (v' : α) (h : k' ≠ k) :
    assocGet (assocSet l k' v') k = assocGet l k := by
  induction l with
  | nil => simp [assocSet, assocGet, h]
  | cons p rest ih =>
      obtain ⟨k0, v0⟩ := p
      by_cases hk : k0 = k'
      · subst hk; simp [assocSet, assocGet, h]
      · simp [assocSet, hk, assocGet, ih]

theorem assocSet_map_fst_of_mem {α : Type} {l : List (CacheKey × α)}
    {k : CacheKey} (v : α) (h : k ∈ l.map Prod.fst) :
    (assocSet l k v).map Prod.fst = l.map Prod.fst := by
  induction l with
  | nil => simp at h
  | cons p rest ih =>
      obtain ⟨k0, v0⟩ := p
      by_cases hk : k0 = k
      · simp [assocSet, hk]
      · simp only [List.map_cons, List.mem_cons] at h
        rcases h with h | h
        · exact absurd h.symm hk
        · simp [assocSet, hk, ih h]

theorem assocSet_of_not_mem {α : Type} {l : List (CacheKey × α)}
    {k : CacheKey} (v : α) (h : k ∉ l.map Prod.fst) :
    assocSet l k v = l ++ [(k, v)] := by
  induction l with
  | nil => simp [assocSet]
  | cons p rest ih =>
      obtain ⟨k0, v0⟩ := p
      simp only [List.map_cons, List.mem_cons] at h
      push_neg at h
      have hne : ¬ k0 = k := fun hh => h.1 hh.symm
      simp [assocSet, hne, ih h.2]

theorem assocDel_map_fst_congr {α β : Type} {l1 : List (CacheKey × α)}
    {l2 : List (CacheKey × β)} (k : CacheKey)
    (h : l1.map Prod.fst = l2.map Prod.fst) :
    (assocDel l1 k).map Prod.fst = (assocDel l2 k).map Prod.fst := by
  induction l1 generalizing l2 with
  | nil =>
      have : l2.map Prod.fst = [] := h.symm
      have h2 : l2 = [] := List.map_eq_nil_iff.mp this
      simp [h2, assocDel]
  | cons p rest ih =>
      obtain ⟨k0, v0⟩ := p
      cases l2 with
      | nil => simp at h
      | cons q rest2 =>
          obtain ⟨k1, v1⟩ := q
          simp only [List.map_cons, List.cons.injEq] at h
          obtain ⟨hk01, hrest⟩ := h
          subst hk01
          by_cases hk : k0 = k
          · simp [assocDel, hk, hrest]
          · simp [assocDel, hk, ih hrest]

theorem assocDel_map_fst_sublist {α : Type} (l : List (CacheKey × α))
    (k : CacheKey) :
    List.Sublist ((assocDel l k).map Prod.fst) (l.map Prod.fst) := by
  induction l with
  | nil => simp [assocDel]
  | cons p rest ih =>
      obtain ⟨k0, v0⟩ := p
      by_cases hk : k0 = k
      · simp only [assocDel, if_pos hk, List.map_cons]
        exact List.sublist_cons_of_sublist _ (List.Sublist.refl _)
      · simp only [assocDel, if_neg hk, List.map_cons]
        exact List.Sublist.cons₂ _ ih

theorem assocDel_length {α : Type} {l : List (CacheKey × α)} {k : CacheKey}
    (h : k ∈ l.map Prod.fst) : (assocDel l k).length + 1 = l.length := by
  induction l with
  | nil => simp at h
  | cons p rest ih =>
      obtain ⟨k0, v0⟩ := p
      by_cases hk : k0 = k
      · simp [assocDel, hk]
      · simp only [List.map_cons, List.mem_cons] at h
        rcases h with h | h
        · exact absurd h.symm hk
        · simp only [assocDel, if_neg hk, List.length_cons]
          have := ih h
          omega

theorem cacheBytes_assocDel {l : List (CacheKey × CacheItem)} {k : CacheKey}
    {v : CacheItem} (h : assocGet l k = some v) :
    cacheBytes (assocDel l k) = cacheBytes l - (v.size : Int) := by
  induction l with
  | nil => simp [assocGet] at h
  | cons p rest ih =>
      obtain ⟨k0, v0⟩ := p
      by_cases hk : k0 = k
      · simp only [assocGet, if_pos hk, Option.some.injEq] at h
        subst h
        simp [assocDel, hk, cacheBytes]
      · simp only [assocGet, if_neg hk] at h
        simp only [assocDel, if_neg hk, cacheBytes, List.map_cons, List.sum_cons]
        have := ih h
        simp only [cacheBytes] at this
        rw [this]
        ring

theorem assocGet_assocDel_of_nodup {α : Type} {l : List (CacheKey × α)}
    {k k' : CacheKey} {v : α} (hnd : (l.map Prod.fst).Nodup)
    (h : assocGet (assocDel l k') k = some v) : assocGet l k = some v := by
  induction l with
  | nil => simp [assocDel, assocGet] at h
  | cons p rest ih =>
      obtain ⟨k0, v0⟩ := p
      simp only [List.map_cons, List.nodup_cons] at hnd
      by_cases hk' : k0 = k'
      · rw [assocDel, if_pos hk'] at h
        by_cases hk : k0 = k
        · exfalso
          have : k ∈ rest.map Prod.fst :=
            List.mem_map_of_mem Prod.fst (assocGet_mem h)
          rw [← hk] at this
          exact hnd.1 this
        · rw [assocGet, if_neg hk]; exact h
      · rw [assocDel, if_neg hk'] at h
        by_cases hk : k0 = k
        · rw [assocGet, if_pos hk] at h ⊢; exact h
        · rw [assocGet, if_neg hk] at h ⊢; exact ih hnd.2 h

theorem oldestEntry_mem {l : List (CacheKey × Nat)} {k : CacheKey} {t : Nat}
    (h : oldestEntry l = some (k, t)) : (k, t) ∈ l := by
  induction l with
  | nil => simp [oldestEntry] at h
  | cons p rest ih =>
      obtain ⟨k0, t0⟩ := p
      simp only [oldestEntry] at h
      cases hrest : oldestEntry rest with
      | none => rw [hrest] at h; cases h; exact List.mem_cons_self _ _
      | some p' =>
          obtain ⟨k', t'⟩ := p'
          rw [hrest] at h
          by_cases hle : t0 ≤ t'
          · simp [hle] at h
            obtain ⟨hk, ht⟩ := h
            subst hk; subst ht
            exact List.mem_cons_self _ _
          · simp [hle] at h
            obtain ⟨hk, ht⟩ := h
            subst hk; subst ht
            exact List.mem_cons_of_mem _ (ih hrest)

theorem oldestEntry_eq_none_iff {l : List (CacheKey × Nat)} :
    oldestEntry l = none ↔ l = [] := by
  cases l with
  | nil => simp [oldestEntry]
  | cons p rest =>
      obtain ⟨k, t⟩ := p
      simp only [oldestEntry]
      cases oldestEntry rest with
      | none => simp
      | some p' =>
          obtain ⟨k', t'⟩ := p'
          by_cases hle : t ≤ t' <;> simp [hle]

/-! ### Eviction lemmas -/

theorem evictLoop_gen_calls (cfg : Config) (fuel : Nat) (s : CacheState) :
    (evictLoop cfg fuel s).gen_calls = s.gen_calls := by
  induction fuel generalizing s with
  | zero => rfl
  | succ fuel ih =>
      rw [evictLoop]
      by_cases hg : overCapacity cfg s
      · rw [if_pos hg]
        cases ho : oldestEntry s.access_times with
        | none => rfl
        | some p =>
            obtain ⟨k, t⟩ := p
            rw [ih]
            rfl
      · rw [if_neg hg]

theorem wf_evictStep {s : CacheState} {k : CacheKey} (hwf : wf s)
    (hk_at : k ∈ s.access_times.map Prod.fst) : wf (evictStep s k) := by
  obtain ⟨hkeys, hnd, hm⟩ := hwf
  have hk_c : k ∈ s.cache.map Prod.fst := by rw [hkeys]; exact hk_at
  obtain ⟨item, hget⟩ := assocGet_isSome_of_mem hk_c
  refine ⟨assocDel_map_fst_congr k hkeys,
    List.Nodup.sublist (assocDel_map_fst_sublist s.cache k) hnd, ?_⟩
  show (match assocGet s.cache k with
    | some item => s.current_memory_usage - (item.size : Int)
    | none => s.current_memory_usage) = cacheBytes (assocDel s.cache k)
  rw [hget, hm, cacheBytes_assocDel hget]

theorem evictLoop_wf_within {cfg : Config} {fuel : Nat} {s : CacheState}
    (hwf : wf s) (hfuel : s.access_times.length ≤ fuel) :
    wf (evictLoop cfg fuel s) ∧ withinCapacity cfg (evictLoop cfg fuel s) := by
  induction fuel generalizing s with
  | zero =>
      have hat : s.access_times = [] :=
        List.length_eq_zero.mp (Nat.le_zero.mp hfuel)
      obtain ⟨hkeys, hnd, hm⟩ := hwf
      have hc : s.cache = [] := by
        have hmf : s.cache.map Prod.fst = [] := by rw [hkeys, hat]; rfl
        exact List.map_eq_nil_iff.mp hmf
      refine ⟨⟨hkeys, hnd, hm⟩, ?_, ?_⟩
      · show s.cache.length ≤ cfg.max_cache_size
        rw [hc]; exact Nat.zero_le _
      · show s.current_memory_usage ≤ (cfg.max_memory_bytes : Int)
        rw [hm, hc]
        show (0 : Int) ≤ _
        exact Int.natCast_nonneg _
  | succ fuel ih =>
      rw [evictLoop]
      by_cases hg : overCapacity cfg s
      · rw [if_pos hg]
        cases ho : oldestEntry s.access_times with
        | none =>
            exfalso
            have hat := oldestEntry_eq_none_iff.mp ho
            obtain ⟨hkeys, hnd, hm⟩ := hwf
            have hc : s.cache = [] := by
              have hmf : s.cache.map Prod.fst = [] := by rw [hkeys, hat]; rfl
              exact List.map_eq_nil_iff.mp hmf
            rw [overCapacity, hc, hm, hc] at hg
            simp [cacheBytes] at hg
            omega
        | some p =>
            obtain ⟨k, t⟩ := p
            have hk_at : k ∈ s.access_times.map Prod.fst :=
              List.mem_map_of_mem Prod.fst (oldestEntry_mem ho)
            have hlen := assocDel_length (l := s.access_times) hk_at
            refine ih (wf_evictStep hwf hk_at) ?_
            show (assocDel s.access_times k).length ≤ fuel
            omega
      · rw [if_neg hg]
        refine ⟨hwf, ?_, ?_⟩
        · show s.cache.length ≤ cfg.max_cache_size
          rw [overCapacity] at hg
          simp only [Bool.or_eq_true, decide_eq_true_eq, not_or] at hg
          omega
        · show s.current_memory_usage ≤ (cfg.max_memory_bytes : Int)
          rw [overCapacity] at hg
          simp only [Bool.or_eq_true, decide_eq_true_eq, not_or] at hg
          exact le_of_not_lt hg.2

theorem evict_lru_wf_within {cfg : Config} {s : CacheState} (hwf : wf s) :
    wf (evict_lru cfg s) ∧ withinCapacity cfg (evict_lru cfg s) :=
  evictLoop_wf_within hwf (Nat.le_refl _)

theorem assocGet_evictLoop {cfg : Config} {fuel : Nat} {s : CacheState}
    {k : CacheKey} {v : CacheItem} (hnd : (s.cache.map Prod.fst).Nodup)
    (h : assocGet (evictLoop cfg fuel s).cache k = some v) :
    assocGet s.cache k = some v := by
  induction fuel generalizing s with
  | zero => exact h
  | succ fuel ih =>
      rw [evictLoop] at h
      by_cases hg : overCapacity cfg s
      · rw [if_pos hg] at h
        cases ho : oldestEntry s.access_times with
        | none => rw [ho] at h; exact h
        | some p =>
            obtain ⟨k', t'⟩ := p
            rw [ho] at h
            have hnd' : ((evictStep s k').cache.map Prod.fst).Nodup :=
              List.Nodup.sublist (assocDel_map_fst_sublist s.cache k') hnd
            exact assocGet_assocDel_of_nodup hnd (ih hnd' h)
      · rw [if_neg hg] at h; exact h

theorem evictLoop_succ_eq {cfg : Config} {fuel : Nat} {s : CacheState}
    (hfuel : s.access_times.length ≤ fuel) :
    evictLoop cfg (fuel + 1) s = evictLoop cfg fuel s := by
  induction fuel generalizing s with
  | zero =>
      have hat : s.access_times = [] :=
        List.length_eq_zero.mp (Nat.le_zero.mp hfuel)
      conv_lhs => rw [evictLoop]
      by_cases hg : overCapacity cfg s
      · rw [if_pos hg, hat]; rfl
      · rw [if_neg hg]; rfl
  | succ fuel ih =>
      conv_lhs => rw [evictLoop]
      conv_rhs => rw [evictLoop]
      by_cases hg : overCapacity cfg s
      · rw [if_pos hg, if_pos hg]
        cases ho : oldestEntry s.access_times with
        | none => rfl
        | some p =>
            obtain ⟨k, t⟩ := p
            have hk_at : k ∈ s.access_times.map Prod.fst :=
              List.mem_map_of_mem Prod.fst (oldestEntry_mem ho)
            have hlen := assocDel_length (l := s.access_times) hk_at
            refine ih ?_
            show (assocDel s.access_times k).length ≤ fuel
            omega
      · rw [if_neg hg, if_neg hg]

theorem evictLoop_eq_evict_lru {cfg : Config} {fuel : Nat} {s : CacheState}
    (hfuel : s.access_times.length ≤ fuel) :
    evictLoop cfg fuel s = evict_lru cfg s := by
  induction fuel with
  | zero =>
      have : s.access_times.length = 0 := Nat.le_zero.mp hfuel
      rw [evict_lru, this]
  | succ fuel ih =>
      by_cases h : s.access_times.length ≤ fuel
      · rw [evictLoop_succ_eq h, ih h]
      · have : s.access_times.length = fuel + 1 := by omega
        rw [evict_lru, this]

/-! ### Branch characterisations of `get_thumbnail_base64` -/

theorem get_none_of_not_isfile {env : Env} {cfg : Config} {now : Nat}
    {s : CacheState} {file_path : String} (hf : env.isfile file_path = false) :
    get_thumbnail_base64 env cfg now s file_path = (none, s) := by
  unfold get_thumbnail_base64
  rw [if_pos hf]

theorem get_none_of_unsupported_ext {env : Env} {cfg : Config} {now : Nat}
    {s : CacheState} {file_path : String}
    (hext : lowerStr (splitext_ext file_path) ∉ SUPPORTED_IMAGE_FORMATS) :
    get_thumbnail_base64 env cfg now s file_path = (none, s) := by
  by_cases hf : env.isfile file_path = false
  · exact get_none_of_not_isfile hf
  · have hf' : env.isfile file_path = true := by
      cases h : env.isfile file_path
      · exact absurd h hf
      · rfl
    simp only [get_thumbnail_base64, hf', hext]
    simp

theorem get_hit {env : Env} {cfg : Config} {now : Nat} {s : CacheState}
    {file_path : String} {item : CacheItem}
    (hf : env.isfile file_path = true)
    (hext : lowerStr (splitext_ext file_path) ∈ SUPPORTED_IMAGE_FORMATS)
    (hget : assocGet s.cache
      (generate_cache_key cfg file_path (env.getmtime file_path)) = some item) :
    get_thumbnail_base64 env cfg now s file_path =
      (some item.data,
        { s with
            access_times :=
              assocSet s.access_times
                (generate_cache_key cfg file_path (env.getmtime file_path))
                now }) := by
  simp only [get_thumbnail_base64, hf, hext, hget]
  simp

theorem get_miss_fail {env : Env} {cfg : Config} {now : Nat} {s : CacheState}
    {file_path : String}
    (hf : env.isfile file_path = true)
    (hext : lowerStr (splitext_ext file_path) ∈ SUPPORTED_IMAGE_FORMATS)
    (hget : assocGet s.cache
      (generate_cache_key cfg file_path (env.getmtime file_path)) = none)
    (hgen : env.createThumbnail file_path = none) :
    get_thumbnail_base64 env cfg now s file_path =
      (none, { s with gen_calls := s.gen_calls + 1 }) := by
  simp only [get_thumbnail_base64, hf, hext, hget, hgen]
  simp

theorem get_miss_success {env : Env} {cfg : Config} {now : Nat}
    {s : CacheState} {file_path : String} {thumbnail_base64 : String}
    (hf : env.isfile file_path = true)
    (hext : lowerStr (splitext_ext file_path) ∈ SUPPORTED_IMAGE_FORMATS)
    (hget : assocGet s.cache
      (generate_cache_key cfg file_path (env.getmtime file_path)) = none)
    (hgen : env.createThumbnail file_path = some thumbnail_base64) :
    get_thumbnail_base64 env cfg now s file_path =
      (some thumbnail_base64,
        evict_lru cfg
          (insertedState cfg now s file_path (env.getmtime file_path)
            thumbnail_base64)) := by
  simp only [get_thumbnail_base64, hf, hext, hget, hgen, insertedState]
  simp

/-! ### Preservation of the bookkeeping invariant and the capacity bounds -/

theorem wf_insertedState {cfg : Config} {now : Nat} {s : CacheState}
    {file_path : String} {m : Nat} {b64 : String} (hwf : wf s)
    (hget : assocGet s.cache (generate_cache_key cfg file_path m) = none) :
    wf (insertedState cfg now s file_path m b64) := by
  obtain ⟨hkeys, hnd, hm⟩ := hwf
  have hk_c : generate_cache_key cfg file_path m ∉ s.cache.map Prod.fst :=
    assocGet_eq_none_iff.mp hget
  have hk_at : generate_cache_key cfg file_path m ∉
      s.access_times.map Prod.fst := by
    rw [← hkeys]; exact hk_c
  refine ⟨?_, ?_, ?_⟩
  · show (assocSet s.cache _ _).map Prod.fst =
      (assocSet s.access_times _ _).map Prod.fst
    rw [assocSet_of_not_mem _ hk_c, assocSet_of_not_mem _ hk_at]
    simp [hkeys]
  · show ((assocSet s.cache _ _).map Prod.fst).Nodup
    rw [assocSet_of_not_mem _ hk_c]
    simp [List.nodup_append, hnd, hk_c]
  · show s.current_memory_usage + ((String.length b64 : Nat) : Int) =
      cacheBytes (assocSet s.cache _ _)
    rw [assocSet_of_not_mem _ hk_c]
    simp [cacheBytes, hm]

theorem wf_get_thumbnail {env : Env} {cfg : Config} {now : Nat}
    {s : CacheState} {file_path : String} (hwf : wf s) :
    wf (get_thumbnail_base64 env cfg now s file_path).2 := by
  cases hf : env.isfile file_path with
  | false => rw [get_none_of_not_isfile hf]; exact hwf
  | true =>
      by_cases hext :
          lowerStr (splitext_ext file_path) ∈ SUPPORTED_IMAGE_FORMATS
      · cases hget : assocGet s.cache
            (generate_cache_key cfg file_path (env.getmtime file_path)) with
        | some item =>
            rw [get_hit hf hext hget]
            obtain ⟨hkeys, hnd, hm⟩ := hwf
            have hk_c : generate_cache_key cfg file_path
                (env.getmtime file_path) ∈ s.cache.map Prod.fst :=
              List.mem_map_of_mem Prod.fst (assocGet_mem hget)
            have hk_at : generate_cache_key cfg file_path
                (env.getmtime file_path) ∈ s.access_times.map Prod.fst := by
              rw [← hkeys]; exact hk_c
            exact ⟨by
              show s.cache.map Prod.fst = (assocSet s.access_times _ _).map Prod.fst
              rw [assocSet_map_fst_of_mem _ hk_at]; exact hkeys, hnd, hm⟩
        | none =>
            cases hgen : env.createThumbnail file_path with
            | none =>
                rw [get_miss_fail hf hext hget hgen]
                exact ⟨hwf.1, hwf.2.1, hwf.2.2⟩
            | some b64 =>
                rw [get_miss_success hf hext hget hgen]
                exact (evict_lru_wf_within (wf_insertedState hwf hget)).1
      · rw [get_none_of_unsupported_ext hext]; exact hwf

theorem within_get_thumbnail {env : Env} {cfg : Config} {now : Nat}
    {s : CacheState} {file_path : String} (hwf : wf s)
    (hwc : withinCapacity cfg s) :
    withinCapacity cfg (get_thumbnail_base64 env cfg now s file_path).2 := by
  cases hf : env.isfile file_path with
  | false => rw [get_none_of_not_isfile hf]; exact hwc
  | true =>
      by_cases hext :
          lowerStr (splitext_ext file_path) ∈ SUPPORTED_IMAGE_FORMATS
      · cases hget : assocGet s.cache
            (generate_cache_key cfg file_path (env.getmtime file_path)) with
        | some item =>
            rw [get_hit hf hext hget]
            exact ⟨hwc.1, hwc.2⟩
        | none =>
            cases hgen : env.createThumbnail file_path with
            | none =>
                rw [get_miss_fail hf hext hget hgen]
                exact ⟨hwc.1, hwc.2⟩
            | some b64 =>
                rw [get_miss_success hf hext hget hgen]
                exact (evict_lru_wf_within (wf_insertedState hwf hget)).2
      · rw [get_none_of_unsupported_ext hext]; exact hwc

theorem wf_stepOp {cfg : Config} {s : CacheState} (hwf : wf s) (op : Op) :
    wf (stepOp cfg s op) := by
  cases op with
  | lookup env file_path now => exact wf_get_thumbnail hwf
  | clear => exact ⟨rfl, List.nodup_nil, rfl⟩
  | stats => exact hwf

theorem within_stepOp {cfg : Config} {s : CacheState} (hwf : wf s)
    (hwc : withinCapacity cfg s) (op : Op) :
    withinCapacity cfg (stepOp cfg s op) := by
  cases op with
  | lookup env file_path now => exact within_get_thumbnail hwf hwc
  | clear =>
      refine ⟨Nat.zero_le _, ?_⟩
      show (0 : Int) ≤ _
      exact Int.natCast_nonneg _
  | stats => exact hwc

theorem runOps_wf_within (cfg : Config) (ops : List Op) {s : CacheState}
    (hwf : wf s) (hwc : withinCapacity cfg s) :
    wf (runOps cfg s ops) ∧ withinCapacity cfg (runOps cfg s ops) := by
  induction ops generalizing s with
  | nil => exact ⟨hwf, hwc⟩
  | cons op rest ih =>
      exact ih (wf_stepOp hwf op) (within_stepOp hwf hwc op)

theorem initState_wf : wf initState := ⟨rfl, List.nodup_nil, rfl⟩

theorem initState_within (cfg : Config) : withinCapacity cfg initState :=
  ⟨Nat.zero_le _, Int.natCast_nonneg _⟩

theorem evict_lru_gen_calls (cfg : Config) (s : CacheState) :
    (evict_lru cfg s).gen_calls = s.gen_calls := by
  unfold evict_lru
  exact evictLoop_gen_calls cfg _ s

theorem assocGet_evict_lru {cfg : Config} {s : CacheState} {k : CacheKey}
    {v : CacheItem} (hnd : (s.cache.map Prod.fst).Nodup)
    (h : assocGet (evict_lru cfg s).cache k = some v) :
    assocGet s.cache k = some v := by
  unfold evict_lru at h
  exact assocGet_evictLoop hnd h

/-! ### Claim theorems -/

/-- C1: after any sequence of public calls starting from a fresh cache, the
entry count is at most `max_cache_size` and the total of the cached entries'
`size` fields is at most `max_memory_bytes` — in particular immediately after
each insertion, since every prefix of a call sequence is itself a call
sequence. -/
theorem capacity_bounds_hold_after_every_call (cfg : Config) (ops : List Op) :
    (runOps cfg initState ops).cache.length ≤ cfg.max_cache_size ∧
    cacheBytes (runOps cfg initState ops).cache ≤
      (cfg.max_memory_bytes : Int) := by
  obtain ⟨hwf, hwc⟩ :=
    runOps_wf_within cfg ops initState_wf (initState_within cfg)
  exact ⟨hwc.1, by rw [← hwf.2.2]; exact hwc.2⟩

/-- C2: with `max_cache_size = 2`, inserting A then B, hitting A, then
inserting C leaves exactly A and C cached (in that dict order), evicts B, and
performs only 3 generations for the 4 calls (the A hit did not regenerate). -/
theorem lru_scenario_keeps_a_c_evicts_b :
    (runOps cfgTwo initState opsLRU).cache.map Prod.fst =
      [generate_cache_key cfgTwo "a.png" 10,
       generate_cache_key cfgTwo "c.png" 10] ∧
    assocGet (runOps cfgTwo initState opsLRU).cache
      (generate_cache_key cfgTwo "b.png" 10) = none ∧
    (runOps cfgTwo initState opsLRU).gen_calls = 3 := by
  decide

/-- C4: when the file's modification time differs from the one an old entry
was cached under, the derived cache key differs from the old key, and the
call is a miss that regenerates: the result is exactly the fresh generation
outcome and the generation counter increases by one. -/
theorem changed_mtime_forces_new_key_and_regeneration {env : Env}
    {cfg : Config} {now : Nat} {s : CacheState} {file_path : String}
    {m_old : Nat}
    (hne : m_old ≠ env.getmtime file_path)
    (hf : env.isfile file_path = true)
    (hext : lowerStr (splitext_ext file_path) ∈ SUPPORTED_IMAGE_FORMATS)
    (hmiss : assocGet s.cache
      (generate_cache_key cfg file_path (env.getmtime file_path)) = none) :
    generate_cache_key cfg file_path m_old ≠
      generate_cache_key cfg file_path (env.getmtime file_path) ∧
    (get_thumbnail_base64 env cfg now s file_path).1 =
      env.createThumbnail file_path ∧
    (get_thumbnail_base64 env cfg now s file_path).2.gen_calls =
      s.gen_calls + 1 := by
  refine ⟨?_, ?_⟩
  · intro h
    simp only [generate_cache_key, CacheKey.mk.injEq] at h
    exact hne h.2.1
  · cases hgen : env.createThumbnail file_path with
    | none =>
        rw [get_miss_fail hf hext hmiss hgen]
        exact ⟨rfl, rfl⟩
    | some b64 =>
        rw [get_miss_success hf hext hmiss hgen]
        refine ⟨rfl, ?_⟩
        show (evict_lru cfg _).gen_calls = s.gen_calls + 1
        rw [evict_lru_gen_calls]
        rfl

/-- C4 witness: concrete instantiation — `a.png` currently has mtime 10 and an
old entry would live under mtime 5; the call regenerates. -/
theorem changed_mtime_forces_new_key_and_regeneration_witness :
    generate_cache_key cfgTwo "a.png" 5 ≠
      generate_cache_key cfgTwo "a.png" 10 ∧
    (get_thumbnail_base64 envABC cfgTwo 1 initState "a.png").1 =
      envABC.createThumbnail "a.png" ∧
    (get_thumbnail_base64 envABC cfgTwo 1 initState "a.png").2.gen_calls =
      initState.gen_calls + 1 :=
  @changed_mtime_forces_new_key_and_regeneration envABC cfgTwo 1 initState
    "a.png" 5 (by decide) (by decide) (by decide) (by decide)

/-- C5: every failure mode of `get_thumbnail_base64` is the value `none`, not
an exception (the Lean embedding is a total function, mirroring the source's
catch-all handlers): a path that is not an existing regular file, an
unsupported (case-insensitively lowered) extension, and a failing
decode/encode pipeline each give `none`. -/
theorem failure_modes_return_none (env : Env) (cfg : Config) (now : Nat)
    (s : CacheState) (file_path : String) :
    (env.isfile file_path = false →
      (get_thumbnail_base64 env cfg now s file_path).1 = none) ∧
    (lowerStr (splitext_ext file_path) ∉ SUPPORTED_IMAGE_FORMATS →
      (get_thumbnail_base64 env cfg now s file_path).1 = none) ∧
    (env.createThumbnail file_path = none →
      assocGet s.cache
        (generate_cache_key cfg file_path (env.getmtime file_path)) = none →
      (get_thumbnail_base64 env cfg now s file_path).1 = none) := by
  refine ⟨?_, ?_, ?_⟩
  · intro hf
    rw [get_none_of_not_isfile hf]
  · intro hext
    rw [get_none_of_unsupported_ext hext]
  · intro hgen hget
    cases hf : env.isfile file_path with
    | false => rw [get_none_of_not_isfile hf]
    | true =>
        by_cases hext :
            lowerStr (splitext_ext file_path) ∈ SUPPORTED_IMAGE_FORMATS
        · rw [get_miss_fail hf hext hget hgen]
        · rw [get_none_of_unsupported_ext hext]

/-- C5 witness: the three spec failure scenarios — a nonexistent
`/no/such/file.jpg`, a text file `notes.txt`, and a `corrupt.png` whose decode
fails — all return `none`. -/
theorem failure_modes_return_none_witness :
    (get_thumbnail_base64 envABC cfgTwo 1 initState "/no/such/file.jpg").1 =
      none ∧
    (get_thumbnail_base64 envFailing cfgTwo 1 initState "notes.txt").1 =
      none ∧
    (get_thumbnail_base64 envFailing cfgTwo 1 initState "corrupt.png").1 =
      none :=
  ⟨(failure_modes_return_none envABC cfgTwo 1 initState
      "/no/such/file.jpg").1 (by decide),
   (failure_modes_return_none envFailing cfgTwo 1 initState
      "notes.txt").2.1 (by decide),
   (failure_modes_return_none envFailing cfgTwo 1 initState
      "corrupt.png").2.2 (by decide) (by decide)⟩

/-- C6 counterexample: the key is computed from the path string exactly as
supplied, with no normalisation to an absolute path.  In `envTwoSpellings`
the relative spelling `img1.png` and the absolute spelling `/models/img1.png`
denote the same file (same existence, mtime 100, identical generated
payload), yet their cache keys differ and looking both up generates twice and
caches two separate entries — refuting the claim that both spellings share
one key. -/
theorem different_path_spellings_yield_different_keys :
    generate_cache_key cfgTwo "img1.png" 100 ≠
      generate_cache_key cfgTwo "/models/img1.png" 100 ∧
    (runOps cfgTwo initState
        [Op.lookup envTwoSpellings "img1.png" 1,
         Op.lookup envTwoSpellings "/models/img1.png" 2]).gen_calls = 2 ∧
    (runOps cfgTwo initState
        [Op.lookup envTwoSpellings "img1.png" 1,
         Op.lookup envTwoSpellings "/models/img1.png" 2]).cache.length = 2 := by
  decide

/-- C6 (amended): the cache key is a function of exactly the supplied path
string, the modification time, and the configured thumbnail width and height:
two calls produce the same key if and only if they supply the same path
string and the same modification time. -/
theorem cache_key_function_of_supplied_path_and_mtime (cfg : Config)
    (p1 p2 : String) (m1 m2 : Nat) :
    generate_cache_key cfg p1 m1 = generate_cache_key cfg p2 m2 ↔
      (p1 = p2 ∧ m1 = m2) := by
  constructor
  · intro h
    simp only [generate_cache_key, CacheKey.mk.injEq] at h
    exact ⟨h.1, h.2.1⟩
  · rintro ⟨rfl, rfl⟩
    rfl

/-- C7: the `_evict_lru` loop terminates: each iteration removes exactly one
entry from `_cache` (strict decrease of the entry count), and the loop is
bounded by the cache population at entry — running it with any fuel at least
the population yields the same final state as `_evict_lru` itself. -/
theorem evict_loop_strict_decrease_and_bounded (cfg : Config)
    (s : CacheState) :
    (∀ k t, wf s → oldestEntry s.access_times = some (k, t) →
      (evictStep s k).cache.length + 1 = s.cache.length) ∧
    (∀ fuel, wf s → s.cache.length ≤ fuel →
      evictLoop cfg fuel s = evict_lru cfg s) := by
  constructor
  · intro k t hwf ho
    have hk_at : k ∈ s.access_times.map Prod.fst :=
      List.mem_map_of_mem Prod.fst (oldestEntry_mem ho)
    have hk_c : k ∈ s.cache.map Prod.fst := by rw [hwf.1]; exact hk_at
    exact assocDel_length hk_c
  · intro fuel hwf hfuel
    have hlen : s.access_times.length = s.cache.length := by
      have hcg := congrArg List.length hwf.1
      simpa using hcg.symm
    exact evictLoop_eq_evict_lru (by omega)

/-- C7 witness: on the one-entry state `sW` under `cfgZero` (capacity 0) the
eviction step removes the single entry, and fuel 7 (at least the population)
reproduces `_evict_lru`. -/
theorem evict_loop_strict_decrease_and_bounded_witness :
    (evictStep sW kW).cache.length + 1 = sW.cache.length ∧
    evictLoop cfgZero 7 sW = evict_lru cfgZero sW :=
  ⟨(evict_loop_strict_decrease_and_bounded cfgZero sW).1 kW 1 (by decide)
      (by decide),
   (evict_loop_strict_decrease_and_bounded cfgZero sW).2 7 (by decide)
      (by decide)⟩

/-- C10: when the freshly generated payload alone exceeds
`max_memory_bytes` (16 bytes against a 10-byte budget), the post-insertion
eviction removes every entry — the pre-existing one and the just-inserted one
— yet the call still returns the generated payload: non-`none` result with an
empty cache and a zero memory counter. -/
theorem oversized_payload_returned_but_cache_emptied :
    cfgTiny.max_memory_bytes < ("0123456789abcdef" : String).length ∧
    sSmall.cache.length = 1 ∧
    (get_thumbnail_base64 envBig cfgTiny 2 sSmall "big.png").1 =
      some "0123456789abcdef" ∧
    (get_thumbnail_base64 envBig cfgTiny 2 sSmall "big.png").2.cache.length =
      0 ∧
    (get_thumbnail_base64 envBig cfgTiny 2
        sSmall "big.png").2.current_memory_usage = 0 := by
  decide

/-- C3: when the file's modification time is unchanged between two
consecutive `get_thumbnail_base64` calls for the same path, and the entry is
still cached when the second call runs (it was not evicted — in particular
not by its own insertion's eviction pass), the second call is a cache hit: it
returns a payload bit-identical to the first call's result and performs no
thumbnail generation (the ghost generation counter does not change). -/
theorem unchanged_mtime_second_call_hits_identically {env1 env2 : Env}
    {cfg : Config} {t1 t2 : Nat} {s : CacheState} {file_path pay : String}
    (hwf : wf s)
    (h1 : (get_thumbnail_base64 env1 cfg t1 s file_path).1 = some pay)
    (hmt : env2.getmtime file_path = env1.getmtime file_path)
    (hf2 : env2.isfile file_path = true)
    (hkey : assocGet (get_thumbnail_base64 env1 cfg t1 s file_path).2.cache
        (generate_cache_key cfg file_path (env1.getmtime file_path)) ≠
        none) :
    (get_thumbnail_base64 env2 cfg t2
        (get_thumbnail_base64 env1 cfg t1 s file_path).2 file_path).1 =
      some pay ∧
    (get_thumbnail_base64 env2 cfg t2
        (get_thumbnail_base64 env1 cfg t1 s file_path).2
        file_path).2.gen_calls =
      (get_thumbnail_base64 env1 cfg t1 s file_path).2.gen_calls := by
  have hf1 : env1.isfile file_path = true := by
    cases hff : env1.isfile file_path
    · rw [get_none_of_not_isfile hff] at h1
      simp at h1
    · rfl
  have hext : lowerStr (splitext_ext file_path) ∈ SUPPORTED_IMAGE_FORMATS := by
    by_contra hx
    rw [get_none_of_unsupported_ext hx] at h1
    simp at h1
  have hstored : ∃ item : CacheItem,
      assocGet (get_thumbnail_base64 env1 cfg t1 s file_path).2.cache
        (generate_cache_key cfg file_path (env1.getmtime file_path)) =
        some item ∧ item.data = pay := by
    cases hget : assocGet s.cache
        (generate_cache_key cfg file_path (env1.getmtime file_path)) with
    | some item =>
        rw [get_hit hf1 hext hget] at h1 ⊢
        simp at h1
        exact ⟨item, hget, h1⟩
    | none =>
        cases hgen : env1.createThumbnail file_path with
        | none =>
            rw [get_miss_fail hf1 hext hget hgen] at h1
            simp at h1
        | some b64 =>
            rw [get_miss_success hf1 hext hget hgen] at h1 hkey ⊢
            simp at h1
            subst h1
            obtain ⟨item', hitem'⟩ := Option.ne_none_iff_exists'.mp hkey
            refine ⟨item', hitem', ?_⟩
            have hwfI := @wf_insertedState cfg t1 s file_path
              (env1.getmtime file_path) b64 hwf hget
            have h2 := assocGet_evict_lru hwfI.2.1 hitem'
            have h3 : assocGet (insertedState cfg t1 s file_path
                (env1.getmtime file_path) b64).cache
                (generate_cache_key cfg file_path (env1.getmtime file_path)) =
                some { data := b64, size := b64.length, created := t1 } := by
              show assocGet (assocSet s.cache _ _) _ = _
              exact assocGet_assocSet_self _ _ _
            rw [h3] at h2
            cases h2
            rfl
  obtain ⟨item, hitem, hdata⟩ := hstored
  have hget2 : assocGet
      (get_thumbnail_base64 env1 cfg t1 s file_path).2.cache
      (generate_cache_key cfg file_path (env2.getmtime file_path)) =
      some item := by
    rw [hmt]
    exact hitem
  rw [get_hit hf2 hext hget2]
  exact ⟨by rw [hdata], rfl⟩

/-- C3 witness: two consecutive calls for `a.png` (mtime 10 throughout)
starting from the empty cache: the second returns the identical payload with
no additional generation. -/
theorem unchanged_mtime_second_call_hits_identically_witness :
    (get_thumbnail_base64 envABC cfgTwo 2
        (get_thumbnail_base64 envABC cfgTwo 1 initState "a.png").2
        "a.png").1 = some "payload-a.png" ∧
    (get_thumbnail_base64 envABC cfgTwo 2
        (get_thumbnail_base64 envABC cfgTwo 1 initState "a.png").2
        "a.png").2.gen_calls =
      (get_thumbnail_base64 envABC cfgTwo 1 initState "a.png").2.gen_calls :=
  @unchanged_mtime_second_call_hits_identically envABC envABC cfgTwo 1 2
    initState "a.png" "payload-a.png" (by decide) (by decide) (by decide)
    (by decide) (by decide)

/-- C8: a call that touches an already-tracked key (the hit path — the only
touch of a key with a previous access time on a well-formed state) records an
access time equal to the call's clock reading, hence strictly greater than
the key's previous access time whenever the clock has advanced past it. -/
theorem touch_strictly_increases_access_time {env : Env} {cfg : Config}
    {now : Nat} {s : CacheState} {file_path : String} {t0 : Nat}
    (hwf : wf s) (hf : env.isfile file_path = true)
    (hext : lowerStr (splitext_ext file_path) ∈ SUPPORTED_IMAGE_FORMATS)
    (hprev : assocGet s.access_times
      (generate_cache_key cfg file_path (env.getmtime file_path)) = some t0)
    (hclock : t0 < now) :
    ∃ t', assocGet
        (get_thumbnail_base64 env cfg now s file_path).2.access_times
        (generate_cache_key cfg file_path (env.getmtime file_path)) =
        some t' ∧ t0 < t' := by
  have hk_at : generate_cache_key cfg file_path (env.getmtime file_path) ∈
      s.access_times.map Prod.fst :=
    List.mem_map_of_mem Prod.fst (assocGet_mem hprev)
  have hk_c : generate_cache_key cfg file_path (env.getmtime file_path) ∈
      s.cache.map Prod.fst := by
    rw [hwf.1]
    exact hk_at
  obtain ⟨item, hget⟩ := assocGet_isSome_of_mem hk_c
  rw [get_hit hf hext hget]
  exact ⟨now, assocGet_assocSet_self _ _ _, hclock⟩

/-- C8 witness: hitting `a.png` (previous access time 1 in `sW`) at clock
reading 5 records an access time strictly greater than 1. -/
theorem touch_strictly_increases_access_time_witness :
    ∃ t', assocGet
        (get_thumbnail_base64 envABC cfgTwo 5 sW "a.png").2.access_times
        (generate_cache_key cfgTwo "a.png" 10) = some t' ∧ 1 < t' :=
  @touch_strictly_increases_access_time envABC cfgTwo 5 sW "a.png" 1
    (by decide) (by decide) (by decide) (by decide) (by decide)

/-- C9: every public operation — lookup, clear, and the read-only stats —
preserves the bookkeeping invariant `wf`: `_cache` and `_access_times` hold
exactly the same keys and `_current_memory_usage` equals the sum of the
cached items' `size` fields. -/
theorem public_operations_preserve_bookkeeping {cfg : Config}
    {s : CacheState} (hwf : wf s) (op : Op) : wf (stepOp cfg s op) :=
  wf_stepOp hwf op

/-- C9 witness: a lookup inserting `b.png` into the one-entry state `sW`
preserves the bookkeeping invariant. -/
theorem public_operations_preserve_bookkeeping_witness :
    wf (stepOp cfgTwo sW (Op.lookup envABC "b.png" 7)) :=
  @public_operations_preserve_bookkeeping cfgTwo sW (by decide)
    (Op.lookup envABC "b.png" 7)

end Thumb
